import Mathlib

/-!
Verification of the column-normalization, data-preparation and query logic of
`gera_graficos.py` (vehicle-purchase dashboard).

The pandas `DataFrame` is embedded as a column store: an ordered list of
`(column name, cell list)` pairs together with a row count.  Cell values are a
tagged union (string | rational number | boolean | date | year-month period |
null), following the dynamic typing of the spreadsheet cells.  pandas calls
whose semantics the script relies on (`to_numeric`/`to_datetime` with
`errors='coerce'`, `value_counts`, `nlargest`) are modelled as total Lean
functions that follow their documented behaviour; cell-level parsers cover the
plain decimal / ISO-date formats, which is all the claims depend on.
-/

/-- A spreadsheet / dataframe cell value. -/
inductive Value : Type where
  | str (s : String)
  | num (q : ℚ)
  | bool (b : Bool)
  | date (y m d : Nat)
  | period (y m : Nat)
  | null
deriving DecidableEq

/-- A dataframe: a row count plus the columns, in order, each a name with its
cell list.  Column names are unique in the tables produced by `read_excel`. -/
structure DF : Type where
  nrows : Nat
  cols : List (String × List Value)
deriving DecidableEq

/-- The empty dataframe, used as a lookup default. -/
def dfEmpty : DF := ⟨0, []⟩

/-- Column names, in order (`df.columns`). -/
def DF.colNames (df : DF) : List String := df.cols.map Prod.fst

/-- Column lookup (`df[name]` when the column may be absent, `df.get(name)`). -/
def DF.getCol? (df : DF) (name : String) : Option (List Value) :=
  (df.cols.find? (fun p => decide (p.1 = name))).map Prod.snd

/-- Column read (`df[name]`); an all-null column of the right length is the
default so that the function is total. -/
def DF.getCol (df : DF) (name : String) : List Value :=
  (df.getCol? name).getD (List.replicate df.nrows Value.null)

/-- `name in df.columns`. -/
def DF.hasCol (df : DF) (name : String) : Bool :=
  df.cols.any (fun p => decide (p.1 = name))

/-- Column assignment (`df[name] = values`): replaces the column in place when
present, appends it at the end otherwise — pandas' behaviour. -/
def DF.setCol (df : DF) (name : String) (vs : List Value) : DF :=
  if df.hasCol name then
    ⟨df.nrows, df.cols.map (fun p => if p.1 = name then (p.1, vs) else p)⟩
  else
    ⟨df.nrows, df.cols ++ [(name, vs)]⟩

/-- `df.copy()`: in this value-semantics embedding a deep copy is the value
itself; the point of the copy in the source is that subsequent column
assignments do not alias the argument (see the heap model below). -/
def DF.copy (df : DF) : DF := df

/-- Python `str.lower` restricted to the Latin-1 range (which covers every
string the script manipulates): ASCII upper case and the Latin-1 upper-case
letters U+00C0–U+00DE (excluding the multiplication sign) map to lower case. -/
def pyLower (c : Char) : Char :=
  let n := c.toNat
  if 65 ≤ n ∧ n ≤ 90 then Char.ofNat (n + 32)
  else if 192 ≤ n ∧ n ≤ 222 ∧ n ≠ 215 then Char.ofNat (n + 32)
  else c

/-- Python `str.isalnum` restricted to the Latin-1 range: ASCII digits and
letters, the Latin-1 letters (U+00C0–U+00FF minus the multiplication and
division signs) and the letter-like signs ª µ º. -/
def pyIsAlnum (c : Char) : Bool :=
  let n := c.toNat
  decide ((48 ≤ n ∧ n ≤ 57) ∨ (65 ≤ n ∧ n ≤ 90) ∨ (97 ≤ n ∧ n ≤ 122) ∨
    n = 170 ∨ n = 181 ∨ n = 186 ∨ (192 ≤ n ∧ n ≤ 255 ∧ n ≠ 215 ∧ n ≠ 247))

/-- `''.join(ch for ch in s.lower() if ch.isalnum())` — the header key used by
the matcher `achar` (line 45 of the source). -/
def normKey (s : String) : String :=
  String.mk ((s.data.map pyLower).filter pyIsAlnum)

/-- Python `str.lower` on a whole string. -/
def strLower (s : String) : String := String.mk (s.data.map pyLower)

/-- `achar(df, lista)` (source lines 42–47): for each candidate in order, scan
the current column names in order; return the first column whose normalized
name equals the normalized candidate. -/
def achar (cols : List String) (lista : List String) : Option String :=
  match lista with
  | [] => none
  | cand :: rest =>
    match cols.find? (fun col => decide (normKey col = normKey cand)) with
    | some col => some col
    | none => achar cols rest

/-- The canonical-field synonym table `m` (source lines 23–39), in the
insertion order of the Python dict. -/
def canonMap : List (String × List String) :=
  [ ("id", ["id", "customer_id", "customerid"]),
    ("nome", ["nome", "name", "cliente", "customer_name"]),
    ("idade", ["idade", "age"]),
    ("sexo", ["sexo", "gender", "genero", "sex"]),
    ("marca", ["marca", "car_make", "make", "brand"]),
    ("modelo", ["modelo", "car_model", "model"]),
    ("combustivel", ["combustivel", "fuel_type", "fuel", "combustível"]),
    ("preco", ["preco", "purchase_price", "price", "valor", "preço"]),
    ("data_compra", ["data_compra", "purchase_date", "date", "data de compra"]),
    ("km", ["km", "mileage", "quilometragem"]),
    ("servicos", ["servicos", "service_count", "serviços"]),
    ("ultima_manutencao",
      ["ultima_manutencao", "last_service_date", "last_service", "ultimo_servico"]),
    ("cidade", ["cidade", "city", "location"]),
    ("financiado", ["financiado", "finance", "is_financed", "financiamento"]),
    ("parcela_mensal", ["parcela_mensal", "monthly_payment", "parcela", "valor_parcela"]) ]

/-- One iteration of the loop at source lines 49–51:
`df2[target] = df2[col] if col is not None else pd.NA`. -/
def normStep (df : DF) (tc : String × List String) : DF :=
  match achar df.colNames tc.2 with
  | some col => df.setCol tc.1 (df.getCol col)
  | none => df.setCol tc.1 (List.replicate df.nrows Value.null)

/-- The normalization loop, also recording which source column was chosen for
each target (the value of `achar` at the moment the target is processed). -/
def normRun : DF → List (String × List String) → DF × List (String × Option String)
  | df, [] => (df, [])
  | df, tc :: rest =>
    let col? := achar df.colNames tc.2
    let r := normRun (normStep df tc) rest
    (r.1, (tc.1, col?) :: r.2)

/-- `normalizar_colunas` (source lines 22–52). -/
def normalizar_colunas (df : DF) : DF :=
  (normRun (DF.copy df) canonMap).1

/-- The target-to-source-column mapping computed by `normalizar_colunas`. -/
def normMapping (df : DF) : List (String × Option String) :=
  (normRun (DF.copy df) canonMap).2

/-- A heap of dataframe objects; references are indices.  Used to state that
`normalizar_colunas` mutates only the fresh copy, never its argument. -/
abbrev Heap := List DF

/-- `normalizar_colunas` with the object mutation made explicit:
`df2 = df.copy()` allocates a fresh frame, the loop writes only to that frame,
and the reference to the result is returned. -/
def normalizarProg (h : Heap) (r : Nat) : Heap × Nat :=
  let df := h.getD r dfEmpty
  let h2 := h ++ [DF.copy df]
  let r2 := h.length
  let h3 := h2.set r2 (normRun (h2.getD r2 dfEmpty) canonMap).1
  (h3, r2)

/-- Digit string to number. -/
def digitsToNat (l : List Char) : Nat :=
  l.foldl (fun a c => a * 10 + (c.toNat - 48)) 0

/-- Non-empty all-digit check. -/
def allDigits (l : List Char) : Bool :=
  (decide (l ≠ [])) && l.all (fun c => decide (48 ≤ c.toNat ∧ c.toNat ≤ 57))

/-- Numeric string parsing as performed by `pd.to_numeric`, modelled on plain
(optionally signed, optionally fractional) decimal literals; anything else is
unparseable. -/
def parseNum (s : String) : Option ℚ :=
  let t := s.trim
  let sign : ℚ := if t.startsWith "-" then -1 else 1
  let body := if t.startsWith "-" then t.drop 1 else t
  match body.splitOn "." with
  | [ip] =>
    if allDigits ip.data then some (sign * (digitsToNat ip.data : ℚ)) else none
  | [ip, fp] =>
    if allDigits ip.data && allDigits fp.data then
      some (sign * ((digitsToNat ip.data : ℚ) +
        (digitsToNat fp.data : ℚ) / ((10 : ℚ) ^ fp.data.length)))
    else none
  | _ => none

/-- Cell-level `pd.to_numeric(·, errors='coerce')`: numbers pass through,
booleans become 0/1, numeric strings are parsed, everything else is
unconvertible. -/
def numCoerce (v : Value) : Option ℚ :=
  match v with
  | .num q => some q
  | .bool b => some (if b then 1 else 0)
  | .str s => parseNum s
  | _ => none

/-- The cell written back by the numeric coercion: parsed number or null. -/
def numCell (v : Value) : Value :=
  match numCoerce v with
  | some q => .num q
  | none => .null

/-- Date string parsing as performed by `pd.to_datetime`, modelled on ISO
`YYYY-MM-DD` literals; anything else is unparseable. -/
def parseDate (s : String) : Option (Nat × Nat × Nat) :=
  match s.trim.splitOn "-" with
  | [ys, ms, ds] =>
    if allDigits ys.data && allDigits ms.data && allDigits ds.data then
      let m := digitsToNat ms.data
      let d := digitsToNat ds.data
      if 1 ≤ m ∧ m ≤ 12 ∧ 1 ≤ d ∧ d ≤ 31 then some (digitsToNat ys.data, m, d)
      else none
    else none
  | _ => none

/-- Cell-level `pd.to_datetime(·, errors='coerce')` followed by `.dt.date`:
dates pass through, parseable date strings are parsed, everything else
(including numbers, which the script never feeds it) coerces to null. -/
def dateCoerce (v : Value) : Option (Nat × Nat × Nat) :=
  match v with
  | .date y m d => some (y, m, d)
  | .str s => parseDate s
  | _ => none

/-- The cell written back by the date coercion: calendar date or null. -/
def dateCell (v : Value) : Value :=
  match dateCoerce v with
  | some t => .date t.1 t.2.1 t.2.2
  | none => .null

/-- `.dt.to_period('M')` on an already date-coerced cell. -/
def periodCell (v : Value) : Value :=
  match v with
  | .date y m _ => .period y m
  | _ => .null

/-- `.dt.year` on an already date-coerced cell (null rows give null). -/
def yearCell (v : Value) : Value :=
  match v with
  | .date y _ _ => .num y
  | _ => .null

/-- `pd.isna` on a cell. -/
def pdIsna (v : Value) : Bool := decide (v = Value.null)

/-- Zero-padded two-digit rendering. -/
def pad2 (n : Nat) : String :=
  if n < 10 then "0" ++ toString n else toString n

/-- Python `str(v)` for the cell values (number rendering is a fixed stand-in;
no numeric rendering lands in the truthy-token set anyway). -/
def pyStr (v : Value) : String :=
  match v with
  | .str s => s
  | .num q => if q.den = 1 then toString q.num else toString q.num ++ "/" ++ toString q.den
  | .bool b => if b then "True" else "False"
  | .date y m d => toString y ++ "-" ++ pad2 m ++ "-" ++ pad2 d
  | .period y m => toString y ++ "-" ++ pad2 m
  | .null => "nan"

/-- The truthy tokens of `to_bool` (source line 68). -/
def truthyTokens : List String :=
  ["true", "1", "sim", "s", "yes", "y", "financiado"]

/-- `to_bool` (source lines 63–70): null is false, booleans pass through,
anything else is stringified, stripped, lowercased and tested against the
truthy tokens.  (The `except` branch is unreachable for cell values: every
step is total.) -/
def to_bool (v : Value) : Bool :=
  if pdIsna v then false
  else
    match v with
    | .bool b => b
    | _ => decide (strLower (pyStr v).trim ∈ truthyTokens)

/-- Python truthiness of a cell value (only ever applied to booleans by the
script, at source line 75). -/
def pyTruthy (v : Value) : Bool :=
  match v with
  | .bool b => b
  | .str s => decide (s ≠ "")
  | .num q => decide (q ≠ 0)
  | .null => false
  | _ => true

/-- The numeric-coercion column of `df['x'] = pd.to_numeric(df.get('x'),
errors='coerce')`: elementwise coercion when the column exists, an all-null
column otherwise (`df.get` returns `None`, which coerces to a null scalar that
broadcasts). -/
def numColumn (df : DF) (name : String) : List Value :=
  match df.getCol? name with
  | some vs => vs.map numCell
  | none => List.replicate df.nrows Value.null

/-- Source lines 55–56: `if 'data_compra' in df.columns: df['data_compra'] =
pd.to_datetime(df['data_compra'], errors='coerce').dt.date`. -/
def prepDataStep (df : DF) : DF :=
  if df.hasCol "data_compra" then
    df.setCol "data_compra" ((df.getCol "data_compra").map dateCell)
  else df

/-- Source lines 58–60: `df[name] = pd.to_numeric(df.get(name),
errors='coerce')`. -/
def prepNumStep (df : DF) (name : String) : DF :=
  df.setCol name (numColumn df name)

/-- Source lines 62–73: coercion of `financiado` to booleans (all-false when
the column is absent). -/
def prepFinStep (df : DF) : DF :=
  if df.hasCol "financiado" then
    df.setCol "financiado" ((df.getCol "financiado").map (fun v => Value.bool (to_bool v)))
  else df.setCol "financiado" (List.replicate df.nrows (Value.bool false))

/-- Source line 75: `df['forma_pagamento'] = df['financiado'].apply(lambda v:
'Financiado' if v else 'À vista')`. -/
def prepFormaStep (df : DF) : DF :=
  df.setCol "forma_pagamento"
    ((df.getCol "financiado").map
      (fun v => Value.str (if pyTruthy v then "Financiado" else "À vista")))

/-- Source lines 77–79: derivation of `mes_compra` and `ano_compra` when
`data_compra` is a column. -/
def prepMesStep (df : DF) : DF :=
  if df.hasCol "data_compra" then
    (df.setCol "mes_compra" ((df.getCol "data_compra").map periodCell)).setCol
      "ano_compra" ((df.getCol "data_compra").map yearCell)
  else df

/-- `preparar_dados` (source lines 54–81): the statements of the function
body, sequenced in source order. -/
def preparar_dados (df : DF) : DF :=
  prepMesStep (prepFormaStep (prepFinStep
    (prepNumStep (prepNumStep (prepNumStep (prepDataStep df) "preco") "km") "parcela_mensal")))

/-- A `value_counts` entry: the value, the index of its first occurrence in the
column, and its number of occurrences. -/
structure VC : Type where
  val : Value
  fidx : Nat
  cnt : Nat
deriving DecidableEq

/-- The distinct non-null values of a column, in order of first appearance
(`seen` accumulates the values already emitted). -/
def dedupFirst (seen : List Value) : List Value → List Value
  | [] => []
  | v :: rest =>
    if v = Value.null ∨ v ∈ seen then dedupFirst seen rest
    else v :: dedupFirst (v :: seen) rest

/-- Index of the first occurrence of `v` in `vs`. -/
def firstIdxOf (vs : List Value) (v : Value) : Nat :=
  vs.findIdx (fun x => decide (x = v))

/-- Number of occurrences of `v` in `vs`. -/
def countOf (vs : List Value) (v : Value) : Nat :=
  vs.countP (fun x => decide (x = v))

/-- The unsorted tally behind `value_counts`: one entry per distinct non-null
value, in first-appearance order. -/
def tally (vs : List Value) : List VC :=
  (dedupFirst [] vs).map (fun v => ⟨v, firstIdxOf vs v, countOf vs v⟩)

/-- The order `value_counts` sorts by: strictly larger count first; among equal
counts, earlier first occurrence first (pandas' stable descending sort over
the first-appearance tally). -/
def vcLE (a b : VC) : Prop :=
  b.cnt < a.cnt ∨ (a.cnt = b.cnt ∧ a.fidx ≤ b.fidx)

instance : DecidableRel vcLE :=
  fun a b => inferInstanceAs (Decidable (b.cnt < a.cnt ∨ (a.cnt = b.cnt ∧ a.fidx ≤ b.fidx)))

instance : IsTotal VC vcLE :=
  ⟨fun a b => by
    rcases Nat.lt_trichotomy a.cnt b.cnt with h | h | h
    · exact Or.inr (Or.inl h)
    · rcases Nat.le_total a.fidx b.fidx with h2 | h2
      · exact Or.inl (Or.inr ⟨h, h2⟩)
      · exact Or.inr (Or.inr ⟨h.symm, h2⟩)
    · exact Or.inl (Or.inl h)⟩

instance : IsTrans VC vcLE :=
  ⟨fun a b c hab hbc => by
    rcases hab with h1 | ⟨h1, h1f⟩ <;> rcases hbc with h2 | ⟨h2, h2f⟩
    · exact Or.inl (h2.trans h1)
    · exact Or.inl (Nat.lt_of_le_of_lt (Nat.le_of_eq h2.symm) h1)
    · exact Or.inl (Nat.lt_of_lt_of_le h2 (Nat.le_of_eq h1.symm))
    · exact Or.inr ⟨h1.trans h2, h1f.trans h2f⟩⟩

/-- `Series.value_counts()`: counts of the distinct non-null values, sorted by
descending count, ties in first-appearance order. -/
def value_counts (vs : List Value) : List VC :=
  List.insertionSort vcLE (tally vs)

/-- `value_counts().nlargest(10)` (`keep='first'` keeps the earlier entries of
the already-sorted series). -/
def nlargest10 (vs : List Value) : List VC :=
  (value_counts vs).take 10

/-- Chronological key of a period cell, for `sort_index()`. -/
def periodKey (v : Value) : Nat :=
  match v with
  | .period y m => y * 12 + m
  | _ => 0

/-- `value_counts(...).sort_index()` for the month series. -/
def sortIndex (l : List VC) : List VC :=
  List.insertionSort (fun a b => periodKey a.val ≤ periodKey b.val) l

/-- `df2['mes_compra'].notna().sum()`. -/
def notnaCount (vs : List Value) : Nat :=
  (vs.filter (fun v => decide (v ≠ Value.null))).length

/-- The chart description returned to the dashboard: the empty figure
(`go.Figure()`) or one of the four populated chart kinds. -/
inductive Fig : Type where
  | empty
  | histFig (title : String) (nbins : Nat) (xs : List Value)
  | barFig (title : String) (xs : List Value) (ys : List Nat)
  | lineFig (title : String) (xs : List String) (ys : List Nat)
  | pieFig (title : String) (names : List Value) (values : List Nat)
deriving DecidableEq

/-- Row filter by boolean mask (`df2[df2['cidade'] == cidade]` applies the mask
to every column). -/
def applyMask (vs : List Value) (mask : List Bool) : List Value :=
  ((vs.zip mask).filter (fun p => p.2)).map Prod.fst

/-- A dataframe filtered by a row mask. -/
def maskFilter (df : DF) (mask : List Bool) : DF :=
  ⟨(mask.filter (fun b => b)).length, df.cols.map (fun p => (p.1, applyMask p.2 mask))⟩

/-- Source lines 139–141: `df2 = df.copy(); if cidade: df2 = df2[df2['cidade']
== cidade]`.  Python truthiness of the dropdown value: `None` and the empty
string are both falsy, so neither filters. -/
def filtrarCidade (df : DF) (cidade : Option String) : DF :=
  match cidade with
  | none => DF.copy df
  | some c =>
    if c = "" then DF.copy df
    else maskFilter df ((df.getCol "cidade").map (fun v => decide (v = Value.str c)))

/-- `atualizar_grafico` (source lines 137–172): the pure chart query as a
function of the prepared table, the chart-type selector and the city filter. -/
def atualizar_grafico (df : DF) (tipo : String) (cidade : Option String) : Fig :=
  let df2 := filtrarCidade df cidade
  if tipo = "hist" then
    Fig.histFig "Distribuição de Preços" 20 (df2.getCol "preco")
  else if tipo = "marcas" then
    let top := nlargest10 (df2.getCol "marca")
    Fig.barFig "Top 10 Marcas" (top.map VC.val) (top.map VC.cnt)
  else if tipo = "cidades" then
    let top := nlargest10 (df2.getCol "cidade")
    Fig.barFig "Top 10 Cidades" (top.map VC.val) (top.map VC.cnt)
  else if tipo = "mes" then
    if notnaCount (df2.getCol "mes_compra") = 0 then Fig.empty
    else
      let series := sortIndex (value_counts (df2.getCol "mes_compra"))
      Fig.lineFig "Compras Por Mês" (series.map (fun e => pyStr e.val)) (series.map VC.cnt)
  else if tipo = "pagamento" then
    let counts := value_counts (df2.getCol "forma_pagamento")
    Fig.pieFig "Forma de Pagamento" (counts.map VC.val) (counts.map VC.cnt)
  else Fig.empty

/-! ### Basic dataframe lemmas -/

theorem DF.nrows_setCol (df : DF) (n : String) (vs : List Value) :
    (df.setCol n vs).nrows = df.nrows := by
  unfold DF.setCol; split <;> rfl

theorem DF.hasCol_iff (df : DF) (n : String) :
    df.hasCol n = true ↔ n ∈ df.colNames := by
  unfold DF.hasCol DF.colNames
  simp only [List.any_eq_true, decide_eq_true_eq, List.mem_map]

theorem find?_map_replace (cols : List (String × List Value)) (n m : String)
    (vs : List Value) (hne : m ≠ n) :
    (cols.map (fun p => if p.1 = n then (p.1, vs) else p)).find?
        (fun p => decide (p.1 = m)) =
      cols.find? (fun p => decide (p.1 = m)) := by
  induction cols with
  | nil => rfl
  | cons c cs ih =>
    simp only [List.map_cons]
    by_cases hc : c.1 = n
    · have hcm : ¬(c.1 = m) := fun h2 => hne (h2 ▸ hc)
      rw [if_pos hc, List.find?_cons_of_neg _ (by simpa using hcm),
        List.find?_cons_of_neg _ (by simpa using hcm), ih]
    · rw [if_neg hc]
      by_cases hcm : c.1 = m
      · rw [List.find?_cons_of_pos _ (by simpa using hcm),
          List.find?_cons_of_pos _ (by simpa using hcm)]
      · rw [List.find?_cons_of_neg _ (by simpa using hcm),
          List.find?_cons_of_neg _ (by simpa using hcm), ih]

theorem find?_map_replace_self (cols : List (String × List Value)) (n : String)
    (vs : List Value) (h : cols.any (fun p => decide (p.1 = n)) = true) :
    (cols.map (fun p => if p.1 = n then (p.1, vs) else p)).find?
        (fun p => decide (p.1 = n)) = some (n, vs) := by
  induction cols with
  | nil => simp at h
  | cons c cs ih =>
    simp only [List.map_cons]
    by_cases hc : c.1 = n
    · rw [if_pos hc, List.find?_cons_of_pos _ (by simpa using hc), hc]
    · rw [if_neg hc, List.find?_cons_of_neg _ (by simpa using hc)]
      apply ih
      simpa [hc] using h

theorem DF.getCol?_setCol (df : DF) (n m : String) (vs : List Value) :
    (df.setCol n vs).getCol? m = if m = n then some vs else df.getCol? m := by
  unfold DF.setCol
  by_cases h : df.hasCol n
  · rw [if_pos h]
    by_cases hm : m = n
    · subst hm
      unfold DF.getCol?
      rw [if_pos rfl]
      unfold DF.hasCol at h
      rw [find?_map_replace_self df.cols m vs h]
      rfl
    · unfold DF.getCol?
      rw [if_neg hm, find?_map_replace df.cols n m vs hm]
  · rw [if_neg h]
    by_cases hm : m = n
    · subst hm
      unfold DF.getCol?
      rw [if_pos rfl, List.find?_append]
      have h0 : df.cols.find? (fun p => decide (p.1 = m)) = none := by
        rw [List.find?_eq_none]
        intro p hp
        simp only [decide_eq_true_eq]
        intro he
        unfold DF.hasCol at h
        exact h (List.any_eq_true.mpr ⟨p, hp, by simpa using he⟩)
      rw [h0]
      simp [List.find?]
    · unfold DF.getCol?
      rw [if_neg hm, List.find?_append]
      have h1 : ([(n, vs)] : List (String × List Value)).find?
          (fun p => decide (p.1 = m)) = none := by
        rw [List.find?_eq_none]
        intro p hp
        simp only [List.mem_singleton] at hp
        subst hp
        simpa using fun h2 => hm h2.symm
      rw [h1, Option.or_none]

theorem DF.colNames_setCol (df : DF) (n : String) (vs : List Value) :
    (df.setCol n vs).colNames =
      if n ∈ df.colNames then df.colNames else df.colNames ++ [n] := by
  unfold DF.setCol
  by_cases h : df.hasCol n
  · rw [if_pos h, if_pos ((DF.hasCol_iff df n).mp h)]
    unfold DF.colNames
    simp only [List.map_map]
    apply List.map_congr_left
    intro p _
    by_cases hp : p.1 = n <;> simp [hp]
  · rw [if_neg h, if_neg (fun hm => h ((DF.hasCol_iff df n).mpr hm))]
    unfold DF.colNames
    simp

theorem DF.getCol_of_getCol? (df : DF) (n : String) (vs : List Value)
    (h : df.getCol? n = some vs) : df.getCol n = vs := by
  unfold DF.getCol
  rw [h]
  rfl

/-! ### The matcher `achar`: spec-side characterization -/

/-- Spec side: candidate `cand` has no matching column among `cols`. -/
def specNoMatch (cols : List String) (cand : String) : Prop :=
  ∀ col ∈ cols, normKey col ≠ normKey cand

instance (cols : List String) (cand : String) : Decidable (specNoMatch cols cand) :=
  inferInstanceAs (Decidable (∀ col ∈ cols, normKey col ≠ normKey cand))

/-- Spec side: `c` is the chosen column for candidate list `lista` over the
columns `cols`: there is a first candidate (every earlier candidate has no
matching column) that `c` matches, and `c` is the first matching column for
it in column order. -/
def specChosen (cols lista : List String) (c : String) : Prop :=
  ∃ pre cand post, lista = pre ++ cand :: post ∧
    (∀ c2 ∈ pre, specNoMatch cols c2) ∧
    normKey c = normKey cand ∧
    ∃ cpre csuf, cols = cpre ++ c :: csuf ∧
      ∀ col ∈ cpre, normKey col ≠ normKey cand

theorem achar_append (raw extra lista : List String)
    (h : ∀ e ∈ extra, ∀ cand ∈ lista, normKey e ≠ normKey cand) :
    achar (raw ++ extra) lista = achar raw lista := by
  induction lista with
  | nil => rfl
  | cons cand rest ih =>
    have hextra : extra.find? (fun col => decide (normKey col = normKey cand)) = none := by
      rw [List.find?_eq_none]
      intro x hx
      simpa using h x hx cand (List.mem_cons_self _ _)
    unfold achar
    rw [List.find?_append, hextra, Option.or_none]
    cases hf : raw.find? (fun col => decide (normKey col = normKey cand)) with
    | some col => rfl
    | none => exact ih (fun e he c2 hc2 => h e he c2 (List.mem_cons_of_mem _ hc2))

theorem achar_none_iff (cols lista : List String) :
    achar cols lista = none ↔ ∀ cand ∈ lista, specNoMatch cols cand := by
  induction lista with
  | nil => simp [achar]
  | cons cand rest ih =>
    unfold achar
    cases hf : cols.find? (fun col => decide (normKey col = normKey cand)) with
    | some col =>
      simp only [reduceCtorEq, false_iff]
      intro hall
      have hcol : col ∈ cols := List.mem_of_find?_eq_some hf
      have hp : normKey col = normKey cand := by
        have := List.find?_some hf
        simpa using this
      exact hall cand (List.mem_cons_self _ _) col hcol hp
    | none =>
      rw [ih]
      constructor
      · intro hrest c2 hc2
        rcases List.mem_cons.mp hc2 with he | hm
        · subst he
          intro col hcol
          have := List.find?_eq_none.mp hf col hcol
          simpa using this
        · exact hrest c2 hm
      · intro hall c2 hc2
        exact hall c2 (List.mem_cons_of_mem _ hc2)

theorem achar_some_iff (cols lista : List String) (c : String) :
    achar cols lista = some c ↔ specChosen cols lista c := by
  induction lista with
  | nil =>
    simp only [achar, reduceCtorEq, false_iff]
    rintro ⟨pre, cand, post, habs, -⟩
    exact absurd habs.symm (by simp)
  | cons cand rest ih =>
    unfold achar
    cases hf : cols.find? (fun col => decide (normKey col = normKey cand)) with
    | some col =>
      constructor
      · intro hsome
        have hcol : c = col := by
          simpa [eq_comm] using hsome
        subst hcol
        obtain ⟨hp, as, bs, hsplit, hpre⟩ := List.find?_eq_some.mp hf
        refine ⟨[], cand, rest, rfl, by simp, by simpa using hp, as, bs, hsplit, ?_⟩
        intro col2 hcol2
        have := hpre col2 hcol2
        simpa using this
      · rintro ⟨pre, cand2, post, hsplit, hprenm, hkey, cpre, csuf, hcols, hcpre⟩
        cases pre with
        | nil =>
          simp only [List.nil_append, List.cons.injEq] at hsplit
          obtain ⟨hc2, -⟩ := hsplit
          subst hc2
          have : cols.find? (fun col => decide (normKey col = normKey cand)) = some c := by
            rw [List.find?_eq_some]
            refine ⟨by simpa using hkey, cpre, csuf, hcols, ?_⟩
            intro a ha
            simpa using hcpre a ha
          rw [hf] at this
          simpa [eq_comm] using this
        | cons p0 pre2 =>
          simp only [List.cons_append, List.cons.injEq] at hsplit
          obtain ⟨hp0, -⟩ := hsplit
          subst hp0
          have hnm : specNoMatch cols cand := hprenm cand (List.mem_cons_self _ _)
          have hcol : col ∈ cols := List.mem_of_find?_eq_some hf
          have hp : normKey col = normKey cand := by
            have := List.find?_some hf
            simpa using this
          exact absurd hp (hnm col hcol)
    | none =>
      rw [ih]
      have hnmcand : specNoMatch cols cand := by
        intro col hcol
        have := List.find?_eq_none.mp hf col hcol
        simpa using this
      constructor
      · rintro ⟨pre, cand2, post, hsplit, hprenm, hkey, rest2⟩
        exact ⟨cand :: pre, cand2, post, by rw [hsplit]; rfl, by
          intro c2 hc2
          rcases List.mem_cons.mp hc2 with he | hm
          · subst he; exact hnmcand
          · exact hprenm c2 hm, hkey, rest2⟩
      · rintro ⟨pre, cand2, post, hsplit, hprenm, hkey, cpre, csuf, hcols, hcpre⟩
        cases pre with
        | nil =>
          simp only [List.nil_append, List.cons.injEq] at hsplit
          obtain ⟨hc2, -⟩ := hsplit
          subst hc2
          have : c ∈ cols := by rw [hcols]; simp
          exact absurd hkey (hnmcand c this)
        | cons p0 pre2 =>
          simp only [List.cons_append, List.cons.injEq] at hsplit
          obtain ⟨hp0, hrest⟩ := hsplit
          exact ⟨pre2, cand2, post, hrest, fun c2 hc2 => hprenm c2 (List.mem_cons_of_mem _ hc2),
            hkey, cpre, csuf, hcols, hcpre⟩

/-! ### The normalization loop -/

/-- The synonym table is cross-match free: no target name, once written as a
new column, can be matched by a candidate of a later target.  This is what
makes the loop's scan of the *mutated* `df2` agree with a scan of the raw
columns. -/
theorem canonMap_crossFree :
    List.Pairwise (fun tc1 tc2 => ∀ cand ∈ tc2.2, normKey tc1.1 ≠ normKey cand) canonMap := by
  decide

theorem canonMap_keysNodup : (canonMap.map Prod.fst).Nodup := by decide

/-- `e` matches no candidate of any entry of `l`. -/
def noCandMatch (e : String) (l : List (String × List String)) : Prop :=
  ∀ tc ∈ l, ∀ cand ∈ tc.2, normKey e ≠ normKey cand

theorem normStep_nrows (df : DF) (tc : String × List String) :
    (normStep df tc).nrows = df.nrows := by
  unfold normStep
  cases achar df.colNames tc.2 <;> rw [DF.nrows_setCol]

theorem normStep_colNames (df : DF) (tc : String × List String) :
    (normStep df tc).colNames =
      if tc.1 ∈ df.colNames then df.colNames else df.colNames ++ [tc.1] := by
  unfold normStep
  cases achar df.colNames tc.2 <;> rw [DF.colNames_setCol]

theorem normStep_getCol?_ne (df : DF) (tc : String × List String) (t : String)
    (hne : tc.1 ≠ t) :
    (normStep df tc).getCol? t = df.getCol? t := by
  unfold normStep
  cases achar df.colNames tc.2 <;>
    rw [DF.getCol?_setCol, if_neg (fun h => hne h.symm)]

theorem normRun_nrows (l : List (String × List String)) :
    ∀ df : DF, (normRun df l).1.nrows = df.nrows := by
  induction l with
  | nil => intro df; rfl
  | cons tc rest ih =>
    intro df
    show (normRun (normStep df tc) rest).1.nrows = df.nrows
    rw [ih (normStep df tc), normStep_nrows]

theorem normRun_colNames (l : List (String × List String)) :
    ∀ df : DF, (l.map Prod.fst).Nodup →
      (normRun df l).1.colNames =
        df.colNames ++ (l.map Prod.fst).filter (fun t => decide (t ∉ df.colNames)) := by
  induction l with
  | nil => intro df _; simp [normRun]
  | cons tc rest ih =>
    intro df hnd
    simp only [List.map_cons, List.nodup_cons] at hnd
    obtain ⟨hni, hnd2⟩ := hnd
    show (normRun (normStep df tc) rest).1.colNames = _
    rw [ih (normStep df tc) hnd2, normStep_colNames]
    by_cases hmem : tc.1 ∈ df.colNames
    · rw [if_pos hmem]
      simp only [List.map_cons, List.filter_cons]
      rw [if_neg (by simp [hmem])]
    · rw [if_neg hmem]
      simp only [List.map_cons, List.filter_cons]
      rw [if_pos (by simpa using hmem), List.append_assoc]
      congr 1
      rw [List.singleton_append]
      congr 1
      apply List.filter_congr
      intro a ha
      have ha2 : a ≠ tc.1 := fun h => hni (h ▸ ha)
      simp [List.mem_append, ha2]

theorem normRun_getCol?_preserved (l : List (String × List String)) :
    ∀ df : DF, ∀ t : String, (∀ tc ∈ l, tc.1 ≠ t) →
      (normRun df l).1.getCol? t = df.getCol? t := by
  induction l with
  | nil => intro df t _; rfl
  | cons tc rest ih =>
    intro df t hne
    show (normRun (normStep df tc) rest).1.getCol? t = df.getCol? t
    rw [ih (normStep df tc) t (fun tc2 h2 => hne tc2 (List.mem_cons_of_mem _ h2)),
      normStep_getCol?_ne df tc t (hne tc (List.mem_cons_self _ _))]

theorem normRun_snd_eq (l : List (String × List String)) :
    ∀ (df : DF) (raw extra : List String),
      df.colNames = raw ++ extra →
      (∀ e ∈ extra, noCandMatch e l) →
      List.Pairwise (fun tc1 tc2 => ∀ cand ∈ tc2.2, normKey tc1.1 ≠ normKey cand) l →
      (normRun df l).2 = l.map (fun tc => (tc.1, achar raw tc.2)) := by
  induction l with
  | nil => intros; rfl
  | cons tc rest ih =>
    intro df raw extra hnames hextra hpw
    have hach : achar df.colNames tc.2 = achar raw tc.2 := by
      rw [hnames]
      exact achar_append raw extra tc.2
        (fun e he cand hc => hextra e he tc (List.mem_cons_self _ _) cand hc)
    rw [List.pairwise_cons] at hpw
    obtain ⟨hhead, htail⟩ := hpw
    show ((normRun (normStep df tc) rest).1, (tc.1, achar df.colNames tc.2) ::
      (normRun (normStep df tc) rest).2).2 = _
    simp only [List.map_cons]
    rw [hach]
    congr 1
    by_cases hmem : tc.1 ∈ df.colNames
    · exact ih (normStep df tc) raw extra
        (by rw [normStep_colNames, if_pos hmem, hnames])
        (fun e he tc2 h2 cand hc => hextra e he tc2 (List.mem_cons_of_mem _ h2) cand hc)
        htail
    · refine ih (normStep df tc) raw (extra ++ [tc.1])
        (by rw [normStep_colNames, if_neg hmem, hnames, List.append_assoc]) ?_ htail
      intro e he
      rcases List.mem_append.mp he with he1 | he2
      · exact fun tc2 h2 cand hc => hextra e he1 tc2 (List.mem_cons_of_mem _ h2) cand hc
      · have : e = tc.1 := by simpa using he2
        subst this
        exact fun tc2 h2 cand hc => hhead tc2 h2 cand hc

theorem normRun_getCol?_target_none (l : List (String × List String)) :
    ∀ (df : DF) (raw extra : List String) (t : String) (lista : List String),
      df.colNames = raw ++ extra →
      (∀ e ∈ extra, noCandMatch e l) →
      List.Pairwise (fun tc1 tc2 => ∀ cand ∈ tc2.2, normKey tc1.1 ≠ normKey cand) l →
      (l.map Prod.fst).Nodup →
      (t, lista) ∈ l →
      achar raw lista = none →
      (normRun df l).1.getCol? t = some (List.replicate df.nrows Value.null) := by
  induction l with
  | nil =>
    intro df raw extra t lista _ _ _ _ hmem _
    simp at hmem
  | cons tc rest ih =>
    intro df raw extra t lista hnames hextra hpw hnd hmem hnone
    have hach : achar df.colNames tc.2 = achar raw tc.2 := by
      rw [hnames]
      exact achar_append raw extra tc.2
        (fun e he cand hc => hextra e he tc (List.mem_cons_self _ _) cand hc)
    rw [List.pairwise_cons] at hpw
    obtain ⟨hhead, htail⟩ := hpw
    simp only [List.map_cons, List.nodup_cons] at hnd
    obtain ⟨hni, hnd2⟩ := hnd
    show (normRun (normStep df tc) rest).1.getCol? t = _
    rcases List.mem_cons.mp hmem with heq | hmem2
    · have ht1 : tc.1 = t := by rw [← heq]
      have ht2 : tc.2 = lista := by rw [← heq]
      have hstep : normStep df tc = df.setCol t (List.replicate df.nrows Value.null) := by
        unfold normStep
        rw [hach, ht2, hnone, ht1]
      rw [hstep]
      have hrest : ∀ tc2 ∈ rest, tc2.1 ≠ t := by
        intro tc2 h2 habs
        exact hni (ht1 ▸ habs ▸ List.mem_map_of_mem Prod.fst h2)
      rw [normRun_getCol?_preserved rest _ t hrest, DF.getCol?_setCol, if_pos rfl]
    · by_cases hmem : tc.1 ∈ df.colNames
      · have := ih (normStep df tc) raw extra t lista
          (by rw [normStep_colNames, if_pos hmem, hnames])
          (fun e he tc2 h2 cand hc => hextra e he tc2 (List.mem_cons_of_mem _ h2) cand hc)
          htail hnd2 hmem2 hnone
        rw [this, normStep_nrows]
      · have := ih (normStep df tc) raw (extra ++ [tc.1]) t lista
          (by rw [normStep_colNames, if_neg hmem, hnames, List.append_assoc]) ?_ htail hnd2 hmem2 hnone
        · rw [this, normStep_nrows]
        · intro e he
          rcases List.mem_append.mp he with he1 | he2
          · exact fun tc2 h2 cand hc => hextra e he1 tc2 (List.mem_cons_of_mem _ h2) cand hc
          · have : e = tc.1 := by simpa using he2
            subst this
            exact fun tc2 h2 cand hc => hhead tc2 h2 cand hc

/-- The mapping computed by the loop coincides with running `achar` over the
*raw* column names, thanks to `canonMap_crossFree`. -/
theorem normMapping_eq (df : DF) :
    normMapping df = canonMap.map (fun tc => (tc.1, achar df.colNames tc.2)) := by
  unfold normMapping DF.copy
  exact normRun_snd_eq canonMap df df.colNames []
    (by simp) (by intro e he; simp at he) canonMap_crossFree

/-- The columns of the normalized table: the raw columns followed by the
canonical targets that were not already raw column names. -/
theorem normalizar_colNames (df : DF) :
    (normalizar_colunas df).colNames =
      df.colNames ++ (canonMap.map Prod.fst).filter (fun t => decide (t ∉ df.colNames)) := by
  unfold normalizar_colunas DF.copy
  exact normRun_colNames canonMap df canonMap_keysNodup

/-! ### Preparation-stage lemmas -/

theorem DF.mem_colNames_setCol (df : DF) (n m : String) (vs : List Value) :
    m ∈ (df.setCol n vs).colNames ↔ (m ∈ df.colNames ∨ m = n) := by
  rw [DF.colNames_setCol]
  by_cases h : n ∈ df.colNames
  · rw [if_pos h]
    constructor
    · exact Or.inl
    · rintro (h1 | h1)
      · exact h1
      · subst h1; exact h
  · rw [if_neg h]
    simp [List.mem_append]

theorem DF.getCol?_of_hasCol (df : DF) (n : String) (h : df.hasCol n = true) :
    ∃ vs, df.getCol? n = some vs := by
  unfold DF.hasCol at h
  rcases List.any_eq_true.mp h with ⟨p, hp, hdec⟩
  cases hfind : df.cols.find? (fun p => decide (p.1 = n)) with
  | some q => exact ⟨q.2, by unfold DF.getCol?; rw [hfind]; rfl⟩
  | none => exact absurd (by simpa using hdec) (by simpa using List.find?_eq_none.mp hfind p hp)

theorem numColumn_congr (df1 df2 : DF) (n : String)
    (h : df1.getCol? n = df2.getCol? n) (h2 : df1.nrows = df2.nrows) :
    numColumn df1 n = numColumn df2 n := by
  unfold numColumn
  rw [h, h2]

theorem numColumn_of_hasCol (df : DF) (n : String) (h : df.hasCol n = true) :
    numColumn df n = (df.getCol n).map numCell := by
  obtain ⟨vs, hvs⟩ := DF.getCol?_of_hasCol df n h
  unfold numColumn
  rw [hvs, DF.getCol_of_getCol? df n vs hvs]

theorem prepDataStep_nrows (df : DF) : (prepDataStep df).nrows = df.nrows := by
  unfold prepDataStep
  split
  · rw [DF.nrows_setCol]
  · rfl

theorem prepDataStep_getCol?_ne (df : DF) (m : String) (hne : m ≠ "data_compra") :
    (prepDataStep df).getCol? m = df.getCol? m := by
  unfold prepDataStep
  split
  · rw [DF.getCol?_setCol, if_neg hne]
  · rfl

theorem prepDataStep_getCol?_dc (df : DF) (h : df.hasCol "data_compra" = true) :
    (prepDataStep df).getCol? "data_compra" =
      some ((df.getCol "data_compra").map dateCell) := by
  unfold prepDataStep
  rw [if_pos h, DF.getCol?_setCol, if_pos rfl]

theorem prepDataStep_hasCol (df : DF) (m : String) :
    (prepDataStep df).hasCol m = true ↔ df.hasCol m = true := by
  unfold prepDataStep
  by_cases hdc : df.hasCol "data_compra"
  · rw [if_pos hdc, DF.hasCol_iff, DF.mem_colNames_setCol, ← DF.hasCol_iff]
    constructor
    · rintro (h1 | h1)
      · exact h1
      · subst h1; exact hdc
    · exact Or.inl
  · rw [if_neg hdc]

theorem prepNumStep_nrows (df : DF) (n : String) : (prepNumStep df n).nrows = df.nrows :=
  DF.nrows_setCol df n (numColumn df n)

theorem prepNumStep_getCol?_self (df : DF) (n : String) :
    (prepNumStep df n).getCol? n = some (numColumn df n) := by
  unfold prepNumStep
  rw [DF.getCol?_setCol, if_pos rfl]

theorem prepNumStep_getCol?_ne (df : DF) (n m : String) (hne : m ≠ n) :
    (prepNumStep df n).getCol? m = df.getCol? m := by
  unfold prepNumStep
  rw [DF.getCol?_setCol, if_neg hne]

theorem prepNumStep_hasCol (df : DF) (n m : String) :
    (prepNumStep df n).hasCol m = true ↔ (df.hasCol m = true ∨ m = n) := by
  unfold prepNumStep
  rw [DF.hasCol_iff, DF.mem_colNames_setCol, ← DF.hasCol_iff]

theorem prepFinStep_nrows (df : DF) : (prepFinStep df).nrows = df.nrows := by
  unfold prepFinStep
  split <;> rw [DF.nrows_setCol]

theorem prepFinStep_getCol?_fin (df : DF) :
    ∃ fin : List Value,
      (prepFinStep df).getCol? "financiado" = some fin ∧
        ∀ v ∈ fin, ∃ b, v = Value.bool b := by
  unfold prepFinStep
  by_cases h : df.hasCol "financiado"
  · rw [if_pos h]
    refine ⟨(df.getCol "financiado").map (fun v => Value.bool (to_bool v)),
      by rw [DF.getCol?_setCol, if_pos rfl], ?_⟩
    intro v hv
    rcases List.mem_map.mp hv with ⟨x, -, hx⟩
    exact ⟨to_bool x, hx.symm⟩
  · rw [if_neg h]
    refine ⟨List.replicate df.nrows (Value.bool false),
      by rw [DF.getCol?_setCol, if_pos rfl], ?_⟩
    intro v hv
    exact ⟨false, List.eq_of_mem_replicate hv⟩

theorem prepFinStep_getCol?_ne (df : DF) (m : String) (hne : m ≠ "financiado") :
    (prepFinStep df).getCol? m = df.getCol? m := by
  unfold prepFinStep
  split <;> rw [DF.getCol?_setCol, if_neg hne]

theorem prepFormaStep_nrows (df : DF) : (prepFormaStep df).nrows = df.nrows :=
  DF.nrows_setCol df _ _

theorem prepFormaStep_getCol?_forma (df : DF) :
    (prepFormaStep df).getCol? "forma_pagamento" =
      some ((df.getCol "financiado").map
        (fun v => Value.str (if pyTruthy v then "Financiado" else "À vista"))) := by
  unfold prepFormaStep
  rw [DF.getCol?_setCol, if_pos rfl]

theorem prepFormaStep_getCol?_ne (df : DF) (m : String) (hne : m ≠ "forma_pagamento") :
    (prepFormaStep df).getCol? m = df.getCol? m := by
  unfold prepFormaStep
  rw [DF.getCol?_setCol, if_neg hne]

theorem prepMesStep_getCol?_ne (df : DF) (m : String)
    (h1 : m ≠ "mes_compra") (h2 : m ≠ "ano_compra") :
    (prepMesStep df).getCol? m = df.getCol? m := by
  unfold prepMesStep
  split
  · rw [DF.getCol?_setCol, if_neg h2, DF.getCol?_setCol, if_neg h1]
  · rfl

/-- The table has every canonical field as a column after normalization. -/
theorem normalizar_hasCol (df : DF) (t : String) (ht : t ∈ canonMap.map Prod.fst) :
    (normalizar_colunas df).hasCol t = true := by
  rw [DF.hasCol_iff, normalizar_colNames]
  by_cases h : t ∈ df.colNames
  · exact List.mem_append_left _ h
  · exact List.mem_append_right _ (List.mem_filter.mpr ⟨ht, by simpa using h⟩)

/-- After preparation, `financiado` is a column of booleans and
`forma_pagamento` is its image under the payment-label lambda. -/
theorem preparar_financiado_forma (df : DF) :
    ∃ fin : List Value,
      (preparar_dados df).getCol? "financiado" = some fin ∧
      (∀ v ∈ fin, ∃ b, v = Value.bool b) ∧
      (preparar_dados df).getCol? "forma_pagamento" =
        some (fin.map (fun v => Value.str (if pyTruthy v then "Financiado" else "À vista"))) := by
  obtain ⟨fin, hfin, hbool⟩ :=
    prepFinStep_getCol?_fin (prepNumStep (prepNumStep (prepNumStep (prepDataStep df) "preco") "km") "parcela_mensal")
  refine ⟨fin, ?_, hbool, ?_⟩
  · unfold preparar_dados
    rw [prepMesStep_getCol?_ne _ _ (by decide) (by decide),
      prepFormaStep_getCol?_ne _ _ (by decide), hfin]
  · unfold preparar_dados
    rw [prepMesStep_getCol?_ne _ _ (by decide) (by decide),
      prepFormaStep_getCol?_forma,
      DF.getCol_of_getCol? _ _ fin hfin]

/-! ### Aggregation lemmas (`value_counts` / `nlargest`) -/

theorem mem_dedupFirst (l : List Value) :
    ∀ (seen : List Value) (v : Value),
      v ∈ dedupFirst seen l → v ∉ seen ∧ v ∈ l ∧ v ≠ Value.null := by
  induction l with
  | nil => intro seen v h; simp [dedupFirst] at h
  | cons w rest ih =>
    intro seen v h
    unfold dedupFirst at h
    by_cases hw : w = Value.null ∨ w ∈ seen
    · rw [if_pos hw] at h
      obtain ⟨h1, h2, h3⟩ := ih seen v h
      exact ⟨h1, List.mem_cons_of_mem _ h2, h3⟩
    · rw [if_neg hw] at h
      push_neg at hw
      rcases List.mem_cons.mp h with he | hm
      · subst he; exact ⟨hw.2, List.mem_cons_self _ _, hw.1⟩
      · obtain ⟨h1, h2, h3⟩ := ih (w :: seen) v hm
        exact ⟨fun hs => h1 (List.mem_cons_of_mem _ hs), List.mem_cons_of_mem _ h2, h3⟩

theorem dedupFirst_sublist (l : List Value) :
    ∀ s1 s2 : List Value, s2 ⊆ s1 → (dedupFirst s1 l).Sublist (dedupFirst s2 l) := by
  induction l with
  | nil => intro s1 s2 _; simp [dedupFirst]
  | cons w rest ih =>
    intro s1 s2 hsub
    unfold dedupFirst
    by_cases h2 : w = Value.null ∨ w ∈ s2
    · have h1 : w = Value.null ∨ w ∈ s1 := by
        rcases h2 with h | h
        · exact Or.inl h
        · exact Or.inr (hsub h)
      rw [if_pos h1, if_pos h2]
      exact ih s1 s2 hsub
    · push_neg at h2
      by_cases h1 : w = Value.null ∨ w ∈ s1
      · rw [if_pos h1, if_neg (by push_neg; exact h2)]
        have hw1 : w ∈ s1 := by
          rcases h1 with h | h
          · exact absurd h h2.1
          · exact h
        exact (ih s1 (w :: s2) (fun x hx => by
          rcases List.mem_cons.mp hx with he | hm
          · subst he; exact hw1
          · exact hsub hm)).cons w
      · rw [if_neg h1, if_neg (by push_neg; exact h2)]
        exact (ih (w :: s1) (w :: s2) (List.cons_subset_cons w hsub)).cons₂ w

theorem firstIdxOf_cons_self (v : Value) (rest : List Value) :
    firstIdxOf (v :: rest) v = 0 := by
  unfold firstIdxOf
  rw [List.findIdx_cons]
  simp

theorem firstIdxOf_cons_ne (w v : Value) (rest : List Value) (h : v ≠ w) :
    firstIdxOf (w :: rest) v = firstIdxOf rest v + 1 := by
  unfold firstIdxOf
  rw [List.findIdx_cons]
  have hd : decide (w = v) = false := decide_eq_false (fun hh => h hh.symm)
  rw [hd]
  rfl

theorem pairwise_firstIdx_dedup (vs : List Value) :
    List.Pairwise (fun a b => firstIdxOf vs a < firstIdxOf vs b) (dedupFirst [] vs) := by
  induction vs with
  | nil => simp [dedupFirst]
  | cons w rest ih =>
    unfold dedupFirst
    by_cases hw : w = Value.null ∨ w ∈ ([] : List Value)
    · rw [if_pos hw]
      have hwn : w = Value.null := by
        rcases hw with h | h
        · exact h
        · simp at h
      refine List.Pairwise.imp_of_mem ?_ ih
      intro a b ha hb hlt
      have ha2 := mem_dedupFirst rest [] a ha
      have hb2 := mem_dedupFirst rest [] b hb
      have haw : a ≠ w := fun h => ha2.2.2 (hwn ▸ h)
      have hbw : b ≠ w := fun h => hb2.2.2 (hwn ▸ h)
      rw [firstIdxOf_cons_ne w a rest haw, firstIdxOf_cons_ne w b rest hbw]
      exact Nat.succ_lt_succ hlt
    · rw [if_neg hw]
      rw [List.pairwise_cons]
      constructor
      · intro b hb
        have hb2 := mem_dedupFirst rest [w] b hb
        have hbw : b ≠ w := fun h => hb2.1 (by simp [h])
        rw [firstIdxOf_cons_self, firstIdxOf_cons_ne w b rest hbw]
        exact Nat.succ_pos _
      · have hsub := dedupFirst_sublist rest [w] [] (by simp)
        refine List.Pairwise.imp_of_mem ?_ (List.Pairwise.sublist hsub ih)
        intro a b ha hb hlt
        have ha2 := mem_dedupFirst rest [w] a ha
        have hb2 := mem_dedupFirst rest [w] b hb
        have haw : a ≠ w := fun h => ha2.1 (by simp [h])
        have hbw : b ≠ w := fun h => hb2.1 (by simp [h])
        rw [firstIdxOf_cons_ne w a rest haw, firstIdxOf_cons_ne w b rest hbw]
        exact Nat.succ_lt_succ hlt

theorem tally_mem (vs : List Value) (e : VC) (he : e ∈ tally vs) :
    e.val ∈ vs ∧ e.val ≠ Value.null ∧
      e.fidx = firstIdxOf vs e.val ∧ e.cnt = countOf vs e.val := by
  unfold tally at he
  rcases List.mem_map.mp he with ⟨v, hv, hev⟩
  obtain ⟨-, hv2, hv3⟩ := mem_dedupFirst vs [] v hv
  rw [← hev]
  exact ⟨hv2, hv3, rfl, rfl⟩

theorem tally_pairwise_fidx (vs : List Value) :
    List.Pairwise (fun a b : VC => a.fidx < b.fidx) (tally vs) := by
  unfold tally
  rw [List.pairwise_map]
  exact pairwise_firstIdx_dedup vs

theorem value_counts_perm (vs : List Value) : (value_counts vs).Perm (tally vs) :=
  List.perm_insertionSort _ _

theorem value_counts_sorted (vs : List Value) : List.Pairwise vcLE (value_counts vs) :=
  List.sorted_insertionSort vcLE (tally vs)

theorem value_counts_fidx_ne (vs : List Value) :
    List.Pairwise (fun a b : VC => a.fidx ≠ b.fidx) (value_counts vs) := by
  have h1 : ((tally vs).map VC.fidx).Nodup :=
    List.pairwise_map.mpr ((tally_pairwise_fidx vs).imp (fun h => Nat.ne_of_lt h))
  have hp : ((value_counts vs).map VC.fidx).Perm ((tally vs).map VC.fidx) :=
    (value_counts_perm vs).map VC.fidx
  have h2 : ((value_counts vs).map VC.fidx).Nodup := hp.nodup_iff.mpr h1
  exact List.pairwise_map.mp h2

/-! ### Filtering and zipping lemmas -/

theorem find?_map_pair (cols : List (String × List Value))
    (f : String × List Value → List Value) (m : String) :
    (cols.map (fun p => (p.1, f p))).find? (fun p => decide (p.1 = m)) =
      (cols.find? (fun p => decide (p.1 = m))).map (fun p => (p.1, f p)) := by
  induction cols with
  | nil => rfl
  | cons c cs ih =>
    simp only [List.map_cons]
    by_cases hc : c.1 = m
    · rw [List.find?_cons_of_pos _ (by simpa using hc),
        List.find?_cons_of_pos _ (by simpa using hc)]
      rfl
    · rw [List.find?_cons_of_neg _ (by simpa using hc),
        List.find?_cons_of_neg _ (by simpa using hc), ih]

theorem maskFilter_getCol? (df : DF) (mask : List Bool) (m : String) :
    (maskFilter df mask).getCol? m = (df.getCol? m).map (fun ws => applyMask ws mask) := by
  unfold maskFilter DF.getCol?
  rw [find?_map_pair]
  cases df.cols.find? (fun p => decide (p.1 = m)) <;> rfl

theorem applyMask_cons (v : Value) (vs : List Value) (b : Bool) (mask : List Bool) :
    applyMask (v :: vs) (b :: mask) =
      if b then v :: applyMask vs mask else applyMask vs mask := by
  unfold applyMask
  rw [List.zip_cons_cons, List.filter_cons]
  cases b <;> simp

theorem applyMask_self (vs : List Value) (p : Value → Bool) :
    applyMask vs (vs.map p) = vs.filter p := by
  induction vs with
  | nil => rfl
  | cons v rest ih =>
    rw [List.map_cons, applyMask_cons, List.filter_cons, ih]

theorem mem_zip_map_right (l : List Value) (g : Value → Value) (p : Value × Value)
    (hp : p ∈ l.zip (l.map g)) : ∃ x ∈ l, p = (x, g x) := by
  have hz : l.zip (l.map g) = l.map (fun x => (x, g x)) := by
    have h2 := List.zip_map' id g l
    simpa using h2
  rw [hz] at hp
  rcases List.mem_map.mp hp with ⟨x, hx, he⟩
  exact ⟨x, hx, he.symm⟩

/-! ### Sample tables for concrete instantiations -/

/-- A raw table with a single non-canonical column. -/
def dfFoo : DF := ⟨1, [("foo", [Value.str "x"])]⟩

/-- A raw table with a city column (containing an empty-string city) and a
financing column. -/
def dfS : DF :=
  ⟨2, [("cidade", [Value.str "A", Value.str ""]),
       ("financiado", [Value.bool true, Value.bool false])]⟩

/-- `dfS` after the full normalize-and-prepare pipeline. -/
def prepS : DF := preparar_dados (normalizar_colunas dfS)

/-- The fields derived later by `preparar_dados`. -/
def derivedFields : List String := ["forma_pagamento", "mes_compra", "ano_compra"]

/-- A small brand column. -/
def vsW : List Value := [Value.str "Fiat", Value.str "VW", Value.str "Fiat"]

/-! ### The claims -/

/-- C1: for every raw table, the normalizer's target-to-column mapping is
`achar` run over the raw column order — the synonym table is cross-match free,
so the columns appended during the loop never influence a later scan — and
`achar cols lista = some c` holds exactly when `c` matches the first candidate
of `lista` (in candidate order) that has any matching column, and `c` is the
first such column in column order: candidate order takes priority over column
order. -/
theorem C1_matching_priority (df : DF) (lista : List String) (c : String) :
    normMapping df = canonMap.map (fun tc => (tc.1, achar df.colNames tc.2)) ∧
    (achar df.colNames lista = some c ↔ specChosen df.colNames lista c) :=
  ⟨normMapping_eq df, achar_some_iff df.colNames lista c⟩

/-- C2: after normalization every canonical field is a column, and when no raw
column matches any of its candidates the field's column is all-null (one null
per row); the loop never fails. -/
theorem C2_fields_present_or_null (df : DF) (t : String) (lista : List String)
    (hm : (t, lista) ∈ canonMap) :
    t ∈ (normalizar_colunas df).colNames ∧
    ((∀ cand ∈ lista, specNoMatch df.colNames cand) →
      (normalizar_colunas df).getCol? t = some (List.replicate df.nrows Value.null)) := by
  constructor
  · exact (DF.hasCol_iff _ _).mp (normalizar_hasCol df t (List.mem_map_of_mem Prod.fst hm))
  · intro hnm
    have hnone : achar df.colNames lista = none := (achar_none_iff _ _).mpr hnm
    unfold normalizar_colunas DF.copy
    exact normRun_getCol?_target_none canonMap df df.colNames [] t lista
      (by simp) (by intro e he; simp at he) canonMap_crossFree canonMap_keysNodup hm hnone

theorem C2_witness :
    "idade" ∈ (normalizar_colunas dfFoo).colNames ∧
    (normalizar_colunas dfFoo).getCol? "idade" =
      some (List.replicate dfFoo.nrows Value.null) := by
  have h := C2_fields_present_or_null dfFoo "idade" ["idade", "age"] (by decide)
  exact ⟨h.1, h.2 (by decide)⟩

/-- C3 counterexample: the normalizer does *not* drop non-canonical raw
columns — `df2 = df.copy()` keeps them all, and the loop only adds columns.
The raw column `"foo"` survives normalization although it is neither a
canonical field nor a later-derived field. -/
theorem C3_counterexample :
    "foo" ∈ (normalizar_colunas dfFoo).colNames ∧
    "foo" ∉ canonMap.map Prod.fst ++ derivedFields := by
  constructor
  · rw [normalizar_colNames]
    exact List.mem_append_left _ (by decide)
  · decide

/-- C3 amended: the normalizer's output contains the raw columns (all of
them, unchanged when non-canonical) followed by the canonical fields that
were not already raw column names; nothing is dropped. -/
theorem C3_amended_columns_retained (df : DF) (c : String) :
    (normalizar_colunas df).colNames =
      df.colNames ++ (canonMap.map Prod.fst).filter (fun t => decide (t ∉ df.colNames)) ∧
    (c ∉ canonMap.map Prod.fst → (normalizar_colunas df).getCol? c = df.getCol? c) := by
  refine ⟨normalizar_colNames df, ?_⟩
  intro hc
  unfold normalizar_colunas DF.copy
  apply normRun_getCol?_preserved
  intro tc htc habs
  exact hc (habs ▸ List.mem_map_of_mem Prod.fst htc)

theorem C3_witness :
    (normalizar_colunas dfFoo).getCol? "foo" = dfFoo.getCol? "foo" :=
  (C3_amended_columns_retained dfFoo "foo").2 (by decide)

/-- C4: `to_bool` always returns a boolean; it returns true exactly for the
boolean `True` and for the non-null, non-boolean values whose stringified,
stripped, lowercased form is a truthy token — so null, unrecognized strings
and everything else map to false. -/
theorem C4_to_bool_rule (v : Value) :
    to_bool v = true ↔
      (v = Value.bool true ∨
        (v ≠ Value.null ∧ (∀ b, v ≠ Value.bool b) ∧
          strLower (pyStr v).trim ∈ truthyTokens)) := by
  cases v with
  | bool b =>
    cases b
    · refine iff_of_false (by decide) ?_
      rintro (h | ⟨-, h2, -⟩)
      · exact absurd h (by decide)
      · exact h2 false rfl
    · exact iff_of_true (by decide) (Or.inl rfl)
  | null =>
    refine iff_of_false (by decide) ?_
    rintro (h | ⟨h1, -, -⟩)
    · exact absurd h (by decide)
    · exact h1 rfl
  | str s =>
    show (decide (strLower (pyStr (Value.str s)).trim ∈ truthyTokens) = true) ↔ _
    simp only [decide_eq_true_eq]
    constructor
    · intro hmem
      exact Or.inr ⟨by simp, fun b => by simp, hmem⟩
    · rintro (h | ⟨-, -, hmem⟩)
      · exact absurd h (by simp)
      · exact hmem
  | num q =>
    show (decide (strLower (pyStr (Value.num q)).trim ∈ truthyTokens) = true) ↔ _
    simp only [decide_eq_true_eq]
    constructor
    · intro hmem
      exact Or.inr ⟨by simp, fun b => by simp, hmem⟩
    · rintro (h | ⟨-, -, hmem⟩)
      · exact absurd h (by simp)
      · exact hmem
  | date y m d =>
    show (decide (strLower (pyStr (Value.date y m d)).trim ∈ truthyTokens) = true) ↔ _
    simp only [decide_eq_true_eq]
    constructor
    · intro hmem
      exact Or.inr ⟨by simp, fun b => by simp, hmem⟩
    · rintro (h | ⟨-, -, hmem⟩)
      · exact absurd h (by simp)
      · exact hmem
  | period y m =>
    show (decide (strLower (pyStr (Value.period y m)).trim ∈ truthyTokens) = true) ↔ _
    simp only [decide_eq_true_eq]
    constructor
    · intro hmem
      exact Or.inr ⟨by simp, fun b => by simp, hmem⟩
    · rintro (h | ⟨-, -, hmem⟩)
      · exact absurd h (by simp)
      · exact hmem

/-- C5: in every prepared table, row by row, `forma_pagamento` is the string
"Financiado" exactly when `financiado` is the boolean true, and "À vista"
exactly when it is the boolean false; it is never null. -/
theorem C5_forma_iff_financiado (df : DF) (p : Value × Value)
    (hp : p ∈ ((preparar_dados df).getCol "financiado").zip
      ((preparar_dados df).getCol "forma_pagamento")) :
    (p.2 = Value.str "Financiado" ↔ p.1 = Value.bool true) ∧
    (p.2 = Value.str "À vista" ↔ p.1 = Value.bool false) ∧
    p.2 ≠ Value.null := by
  obtain ⟨fin, h1, hbool, h2⟩ := preparar_financiado_forma df
  rw [DF.getCol_of_getCol? _ _ _ h1, DF.getCol_of_getCol? _ _ _ h2] at hp
  obtain ⟨x, hx, hpe⟩ := mem_zip_map_right fin _ p hp
  obtain ⟨b, hb⟩ := hbool x hx
  subst hpe
  subst hb
  cases b <;> decide

theorem C5_witness :
    ((Value.bool true, Value.str "Financiado").2 = Value.str "Financiado" ↔
      (Value.bool true, Value.str "Financiado").1 = Value.bool true) ∧
    ((Value.bool true, Value.str "Financiado").2 = Value.str "À vista" ↔
      (Value.bool true, Value.str "Financiado").1 = Value.bool false) ∧
    (Value.bool true, Value.str "Financiado").2 ≠ Value.null :=
  C5_forma_iff_financiado (normalizar_colunas dfS)
    (Value.bool true, Value.str "Financiado") (by decide)

/-- A numeric-coerced cell is a number or null. -/
theorem numCell_shape (x : Value) :
    (∃ q, numCell x = Value.num q) ∨ numCell x = Value.null := by
  unfold numCell
  cases numCoerce x
  · exact Or.inr rfl
  · exact Or.inl ⟨_, rfl⟩

/-- C6: on every normalized table preparation is total (every coercion is a
total function into value-or-null): the `data_compra` column becomes its
elementwise date coercion and `preco`, `km` and `parcela_mensal` become their
elementwise numeric coercions, so each of the three numeric fields holds a
number or a null on every row. -/
theorem C6_coercion_null_degrade (df0 : DF) :
    (preparar_dados (normalizar_colunas df0)).getCol? "data_compra" =
      some (((normalizar_colunas df0).getCol "data_compra").map dateCell) ∧
    (preparar_dados (normalizar_colunas df0)).getCol? "preco" =
      some (((normalizar_colunas df0).getCol "preco").map numCell) ∧
    (preparar_dados (normalizar_colunas df0)).getCol? "km" =
      some (((normalizar_colunas df0).getCol "km").map numCell) ∧
    (preparar_dados (normalizar_colunas df0)).getCol? "parcela_mensal" =
      some (((normalizar_colunas df0).getCol "parcela_mensal").map numCell) ∧
    (∀ name ∈ (["preco", "km", "parcela_mensal"] : List String),
      ∀ v ∈ (preparar_dados (normalizar_colunas df0)).getCol name,
        (∃ q, v = Value.num q) ∨ v = Value.null) := by
  have hdc : (normalizar_colunas df0).hasCol "data_compra" = true :=
    normalizar_hasCol df0 _ (by decide)
  have hpr : (normalizar_colunas df0).hasCol "preco" = true :=
    normalizar_hasCol df0 _ (by decide)
  have hkm : (normalizar_colunas df0).hasCol "km" = true :=
    normalizar_hasCol df0 _ (by decide)
  have hpm : (normalizar_colunas df0).hasCol "parcela_mensal" = true :=
    normalizar_hasCol df0 _ (by decide)
  have h1 : (preparar_dados (normalizar_colunas df0)).getCol? "data_compra" =
      some (((normalizar_colunas df0).getCol "data_compra").map dateCell) := by
    unfold preparar_dados
    rw [prepMesStep_getCol?_ne _ _ (by decide) (by decide),
      prepFormaStep_getCol?_ne _ _ (by decide),
      prepFinStep_getCol?_ne _ _ (by decide),
      prepNumStep_getCol?_ne _ _ _ (by decide),
      prepNumStep_getCol?_ne _ _ _ (by decide),
      prepNumStep_getCol?_ne _ _ _ (by decide),
      prepDataStep_getCol?_dc _ hdc]
  have h2 : (preparar_dados (normalizar_colunas df0)).getCol? "preco" =
      some (((normalizar_colunas df0).getCol "preco").map numCell) := by
    unfold preparar_dados
    rw [prepMesStep_getCol?_ne _ _ (by decide) (by decide),
      prepFormaStep_getCol?_ne _ _ (by decide),
      prepFinStep_getCol?_ne _ _ (by decide),
      prepNumStep_getCol?_ne _ _ _ (by decide),
      prepNumStep_getCol?_ne _ _ _ (by decide),
      prepNumStep_getCol?_self,
      numColumn_congr (prepDataStep (normalizar_colunas df0)) (normalizar_colunas df0) "preco"
        (prepDataStep_getCol?_ne _ _ (by decide)) (prepDataStep_nrows _),
      numColumn_of_hasCol _ _ hpr]
  have h3 : (preparar_dados (normalizar_colunas df0)).getCol? "km" =
      some (((normalizar_colunas df0).getCol "km").map numCell) := by
    unfold preparar_dados
    rw [prepMesStep_getCol?_ne _ _ (by decide) (by decide),
      prepFormaStep_getCol?_ne _ _ (by decide),
      prepFinStep_getCol?_ne _ _ (by decide),
      prepNumStep_getCol?_ne _ _ _ (by decide),
      prepNumStep_getCol?_self,
      numColumn_congr (prepNumStep (prepDataStep (normalizar_colunas df0)) "preco")
        (normalizar_colunas df0) "km"
        (by rw [prepNumStep_getCol?_ne _ _ _ (by decide),
          prepDataStep_getCol?_ne _ _ (by decide)])
        (by rw [prepNumStep_nrows, prepDataStep_nrows]),
      numColumn_of_hasCol _ _ hkm]
  have h4 : (preparar_dados (normalizar_colunas df0)).getCol? "parcela_mensal" =
      some (((normalizar_colunas df0).getCol "parcela_mensal").map numCell) := by
    unfold preparar_dados
    rw [prepMesStep_getCol?_ne _ _ (by decide) (by decide),
      prepFormaStep_getCol?_ne _ _ (by decide),
      prepFinStep_getCol?_ne _ _ (by decide),
      prepNumStep_getCol?_self,
      numColumn_congr
        (prepNumStep (prepNumStep (prepDataStep (normalizar_colunas df0)) "preco") "km")
        (normalizar_colunas df0) "parcela_mensal"
        (by rw [prepNumStep_getCol?_ne _ _ _ (by decide),
          prepNumStep_getCol?_ne _ _ _ (by decide),
          prepDataStep_getCol?_ne _ _ (by decide)])
        (by rw [prepNumStep_nrows, prepNumStep_nrows, prepDataStep_nrows]),
      numColumn_of_hasCol _ _ hpm]
  refine ⟨h1, h2, h3, h4, ?_⟩
  intro name hname v hv
  have hshape : ∀ vs : List Value,
      (preparar_dados (normalizar_colunas df0)).getCol? name = some (vs.map numCell) →
      (∃ q, v = Value.num q) ∨ v = Value.null := by
    intro vs hvs
    rw [DF.getCol_of_getCol? _ _ _ hvs] at hv
    rcases List.mem_map.mp hv with ⟨x, -, hx⟩
    rw [← hx]
    exact numCell_shape x
  rcases List.mem_cons.mp hname with he | hname2
  · subst he; exact hshape _ h2
  rcases List.mem_cons.mp hname2 with he | hname3
  · subst he; exact hshape _ h3
  rcases List.mem_cons.mp hname3 with he | hname4
  · subst he; exact hshape _ h4
  · simp at hname4

theorem C6_witness :
    (preparar_dados (normalizar_colunas dfS)).getCol? "preco" =
      some (((normalizar_colunas dfS).getCol "preco").map numCell) ∧
    ((∃ q, Value.null = Value.num q) ∨ Value.null = Value.null) :=
  ⟨(C6_coercion_null_degrade dfS).2.1,
    (C6_coercion_null_degrade dfS).2.2.2.2 "preco" (by decide) Value.null (by decide)⟩

/-- C7 counterexample: the empty string is a non-null filter value, yet the
query layer does not filter with it (`if cidade:` treats it as falsy): the
row with `cidade = "A"` is kept although it differs from the filter value. -/
theorem C7_counterexample :
    filtrarCidade dfS (some "") = dfS ∧
    Value.str "A" ∈ (filtrarCidade dfS (some "")).getCol "cidade" ∧
    Value.str "A" ≠ Value.str "" := by
  exact ⟨rfl, by decide, by decide⟩

/-- C7 amended: a null *or falsy (empty-string)* filter leaves the table
unfiltered; a non-empty filter keeps exactly the rows whose `cidade` cell
equals the filter value as a string (rows with a different or null `cidade`
are excluded), applying the same row mask to every column. -/
theorem C7_city_filter (df : DF) (c : String) (vs : List Value) :
    filtrarCidade df none = df ∧
    filtrarCidade df (some "") = df ∧
    (c ≠ "" → df.getCol? "cidade" = some vs →
      ((filtrarCidade df (some c)).getCol? "cidade" =
          some (vs.filter (fun v => decide (v = Value.str c))) ∧
        (∀ v ∈ (filtrarCidade df (some c)).getCol "cidade", v = Value.str c) ∧
        (∀ name ws, df.getCol? name = some ws →
          (filtrarCidade df (some c)).getCol? name =
            some (applyMask ws (vs.map (fun v => decide (v = Value.str c))))))) := by
  refine ⟨rfl, by
    show (if ("" : String) = "" then DF.copy df
      else maskFilter df ((df.getCol "cidade").map (fun v => decide (v = Value.str "")))) = df
    rw [if_pos rfl]; rfl, ?_⟩
  intro hc hvs
  have hfil : filtrarCidade df (some c) =
      maskFilter df ((vs.map (fun v => decide (v = Value.str c)))) := by
    show (if c = "" then DF.copy df
      else maskFilter df ((df.getCol "cidade").map (fun v => decide (v = Value.str c)))) = _
    rw [if_neg hc, DF.getCol_of_getCol? df _ vs hvs]
  have hcid : (filtrarCidade df (some c)).getCol? "cidade" =
      some (vs.filter (fun v => decide (v = Value.str c))) := by
    rw [hfil, maskFilter_getCol?, hvs]
    simp [applyMask_self]
  refine ⟨hcid, ?_, ?_⟩
  · intro v hv
    rw [DF.getCol_of_getCol? _ _ _ hcid] at hv
    have := List.mem_filter.mp hv
    simpa using this.2
  · intro name ws hws
    rw [hfil, maskFilter_getCol?, hws]
    rfl

theorem C7_witness :
    (filtrarCidade dfS (some "A")).getCol? "cidade" =
      some (([Value.str "A", Value.str ""] : List Value).filter
        (fun v => decide (v = Value.str "A"))) :=
  ((C7_city_filter dfS "A" [Value.str "A", Value.str ""]).2.2 (by decide) (by decide)).1

/-- C8: the top-10 aggregation behind the "marcas" and "cidades" charts
returns at most 10 entries, sorted by descending count; entries with equal
counts appear in order of first occurrence in the column, and every entry's
first-occurrence index and count are those of its value in the column. -/
theorem C8_top10_sorted (vs : List Value) :
    (nlargest10 vs).length ≤ 10 ∧
    List.Pairwise (fun a b : VC => b.cnt ≤ a.cnt) (nlargest10 vs) ∧
    List.Pairwise (fun a b : VC => a.cnt = b.cnt →
      firstIdxOf vs a.val < firstIdxOf vs b.val) (nlargest10 vs) ∧
    (∀ e ∈ nlargest10 vs, e.val ∈ vs ∧ e.val ≠ Value.null ∧
      e.fidx = firstIdxOf vs e.val ∧ e.cnt = countOf vs e.val) := by
  have hmem : ∀ e ∈ value_counts vs, e.val ∈ vs ∧ e.val ≠ Value.null ∧
      e.fidx = firstIdxOf vs e.val ∧ e.cnt = countOf vs e.val :=
    fun e he => tally_mem vs e ((value_counts_perm vs).subset he)
  refine ⟨List.length_take_le 10 _, ?_, ?_, ?_⟩
  · refine List.Pairwise.sublist (List.take_sublist 10 _) ?_
    refine (value_counts_sorted vs).imp ?_
    intro a b hab
    rcases hab with h | ⟨h, -⟩
    · exact Nat.le_of_lt h
    · exact Nat.le_of_eq h.symm
  · refine List.Pairwise.sublist (List.take_sublist 10 _) ?_
    have hand := (value_counts_sorted vs).and (value_counts_fidx_ne vs)
    refine List.Pairwise.imp_of_mem ?_ hand
    intro a b ha hb hab hcnt
    obtain ⟨-, -, ha3, -⟩ := hmem a ha
    obtain ⟨-, -, hb3, -⟩ := hmem b hb
    rcases hab.1 with h | ⟨-, hle⟩
    · rw [hcnt] at h
      exact absurd h (lt_irrefl _)
    · rw [← ha3, ← hb3]
      exact lt_of_le_of_ne hle hab.2
  · intro e he
    exact hmem e (List.Sublist.mem he (List.take_sublist 10 _))

theorem C8_witness :
    ((⟨Value.str "Fiat", 0, 2⟩ : VC).val ∈ vsW ∧
      (⟨Value.str "Fiat", 0, 2⟩ : VC).val ≠ Value.null ∧
      (⟨Value.str "Fiat", 0, 2⟩ : VC).fidx = firstIdxOf vsW (⟨Value.str "Fiat", 0, 2⟩ : VC).val ∧
      (⟨Value.str "Fiat", 0, 2⟩ : VC).cnt = countOf vsW (⟨Value.str "Fiat", 0, 2⟩ : VC).val) :=
  (C8_top10_sorted vsW).2.2.2 ⟨Value.str "Fiat", 0, 2⟩ (by decide)

/-- C9: the query layer returns the empty figure (and cannot fail — it is a
total function) for any chart type outside the five supported ones, and for
the month chart whenever the filtered table has no non-null `mes_compra`
value. -/
theorem C9_unknown_chart_empty (df : DF) (cidade : Option String) (tipo : String) :
    (tipo ∉ (["hist", "marcas", "cidades", "mes", "pagamento"] : List String) →
      atualizar_grafico df tipo cidade = Fig.empty) ∧
    (notnaCount ((filtrarCidade df cidade).getCol "mes_compra") = 0 →
      atualizar_grafico df "mes" cidade = Fig.empty) := by
  constructor
  · intro h
    have h1 : (tipo = "hist") = False := eq_false (fun he => h (by rw [he]; decide))
    have h2 : (tipo = "marcas") = False := eq_false (fun he => h (by rw [he]; decide))
    have h3 : (tipo = "cidades") = False := eq_false (fun he => h (by rw [he]; decide))
    have h4 : (tipo = "mes") = False := eq_false (fun he => h (by rw [he]; decide))
    have h5 : (tipo = "pagamento") = False := eq_false (fun he => h (by rw [he]; decide))
    simp only [atualizar_grafico, h1, h2, h3, h4, h5, if_false]
  · intro h
    simp [atualizar_grafico, h]

theorem C9_witness :
    atualizar_grafico prepS "nada" none = Fig.empty ∧
    atualizar_grafico prepS "mes" none = Fig.empty :=
  ⟨(C9_unknown_chart_empty prepS none "nada").1 (by decide),
    (C9_unknown_chart_empty prepS none "mes").2 (by decide)⟩

/-- C10: running the normalizer mutates only the freshly allocated copy: the
heap cell holding the argument dataframe is unchanged, and the returned
reference holds exactly `normalizar_colunas` of the argument. -/
theorem C10_normalizer_no_mutation (h : Heap) (r : Nat) (hr : r < h.length) :
    (normalizarProg h r).1.getD r dfEmpty = h.getD r dfEmpty ∧
    (normalizarProg h r).1.getD (normalizarProg h r).2 dfEmpty =
      normalizar_colunas (h.getD r dfEmpty) := by
  have hne : h.length ≠ r := fun he => absurd hr (by rw [he]; exact lt_irrefl r)
  constructor
  · show (((h ++ [DF.copy (h.getD r dfEmpty)]).set h.length
      (normRun ((h ++ [DF.copy (h.getD r dfEmpty)]).getD h.length dfEmpty) canonMap).1).getD
        r dfEmpty) = h.getD r dfEmpty
    rw [List.getD_eq_getElem?_getD, List.getElem?_set_ne hne, List.getElem?_append,
      if_pos hr, ← List.getD_eq_getElem?_getD]
  · show (((h ++ [DF.copy (h.getD r dfEmpty)]).set h.length
      (normRun ((h ++ [DF.copy (h.getD r dfEmpty)]).getD h.length dfEmpty) canonMap).1).getD
        h.length dfEmpty) = normalizar_colunas (h.getD r dfEmpty)
    have hlen : h.length < (h ++ [DF.copy (h.getD r dfEmpty)]).length := by
      rw [List.length_append]
      simp
    have hget : (h ++ [DF.copy (h.getD r dfEmpty)]).getD h.length dfEmpty =
        DF.copy (h.getD r dfEmpty) := by
      rw [List.getD_eq_getElem?_getD, List.getElem?_append, if_neg (lt_irrefl _),
        Nat.sub_self]
      rfl
    rw [List.getD_eq_getElem?_getD, List.getElem?_set_self hlen, Option.getD_some, hget]
    rfl

theorem C10_witness :
    (normalizarProg [dfFoo] 0).1.getD 0 dfEmpty = [dfFoo].getD 0 dfEmpty :=
  (C10_normalizer_no_mutation [dfFoo] 0 (by decide)).1
